import Mathlib

/-!
Verification of the Encyclopinya bot's retrieval pipeline and storage
operations, shallowly embedded in Lean 4.

The embedding models:
* `searchKnowledgeBase` — the SQL query in `AI.search_knowledge_base`
  (`src/utils/ai.py`): filter stored records by `1 - (embedding <=> q) > t`,
  order by similarity descending (stable), limit 3.  The pgvector cosine
  distance operator `<=>` and the embedding provider are abstract parameters,
  since both are external services.
* `checkDuplicate` — `AI.check_duplicate`.
* `upsertKnowledge` — `Knowledge.upsert_knowledge` (`src/cogs/knowledge.py`),
  with JSONB metadata as an association list and `||` as right-biased merge.
* `cfgGet`/`cfgSet` — `ConfigManager.get/set` (`src/core/config_manager.py`),
  with the fallible database write made explicit.
* `configThreshold` — `Admin.config_threshold` (`src/cogs/admin.py`).
* `forget` — `Knowledge.forget`.
* `onMessage` — the live-query pipeline of `Query.on_message`
  (`src/cogs/query.py`) from the point where the permission gates have
  passed: alias substitution, translation, retrieval, gap reporting,
  answer synthesis, reply.
-/

namespace Pinya

/-- JSON scalar values appearing in record metadata. -/
inductive JVal where
  | jInt (n : Int)
  | jBool (b : Bool)
  | jStr (s : String)
deriving DecidableEq, Repr

/-- JSONB object, modelled as an association list of key/value pairs. -/
abbrev Jsonb := List (String × JVal)

/-- Key lookup in a JSONB object (first binding wins). -/
def jget (m : Jsonb) (k : String) : Option JVal :=
  (m.find? (fun kv => kv.1 = k)).map (fun kv => kv.2)

/-- The PostgreSQL JSONB concatenation `a || b`: keys of `b` override keys
of `a`. -/
def jsonbConcat (a b : Jsonb) : Jsonb :=
  a.filter (fun kv => ¬ b.any (fun kv2 => kv2.1 = kv.1)) ++ b

/-- A row of the `pinya_docs` table. -/
structure Record where
  id : Nat
  topic : String
  content : String
  embedding : List ℚ
  metadata : Jsonb
deriving DecidableEq, Repr

/-- Cosine similarity as computed by the SQL query: `1 - (embedding <=> q)`,
with the cosine-distance operator `<=>` abstract (`dist`). -/
def simScore (dist : List ℚ → List ℚ → ℚ) (qv : List ℚ) (r : Record) : ℚ :=
  1 - dist r.embedding qv

/-- Comparator for `ORDER BY similarity DESC`: `a` sorts no later than `b`
when `a`'s similarity is at least `b`'s. -/
def simLE (dist : List ℚ → List ℚ → ℚ) (qv : List ℚ) (a b : Record) : Bool :=
  decide (simScore dist qv b ≤ simScore dist qv a)

/-- `AI.search_knowledge_base`: embed the query text, keep the records whose
similarity strictly exceeds `threshold`, sort by similarity descending
(stable, ties in table order), return at most 3. -/
def searchKnowledgeBase (dist : List ℚ → List ℚ → ℚ) (embed : String → List ℚ)
    (store : List Record) (text : String) (threshold : ℚ := 1/2) : List Record :=
  let qv := embed text
  (((store.filter (fun r => decide (threshold < simScore dist qv r))).mergeSort
      (simLE dist qv)).take 3)

theorem simLE_trans (dist : List ℚ → List ℚ → ℚ) (qv : List ℚ) :
    ∀ a b c, simLE dist qv a b → simLE dist qv b c → simLE dist qv a c := by
  intro a b c hab hbc
  simp only [simLE, decide_eq_true_eq] at *
  exact le_trans hbc hab

theorem simLE_total (dist : List ℚ → List ℚ → ℚ) (qv : List ℚ) :
    ∀ a b, simLE dist qv a b || simLE dist qv b a := by
  intro a b
  simp only [simLE, Bool.or_eq_true, decide_eq_true_eq]
  exact le_total _ _

/-- C1: for every query text and threshold, `search_knowledge_base` returns
only records whose cosine similarity (1 minus cosine distance) to the query
embedding strictly exceeds the threshold, sorted in non-increasing order of
similarity, with at most 3 results. -/
theorem search_above_threshold_sorted_atMost3
    (dist : List ℚ → List ℚ → ℚ) (embed : String → List ℚ)
    (store : List Record) (text : String) (t : ℚ) :
    (∀ r ∈ searchKnowledgeBase dist embed store text t,
        t < simScore dist (embed text) r)
    ∧ (searchKnowledgeBase dist embed store text t).Pairwise
        (fun a b => simScore dist (embed text) b ≤ simScore dist (embed text) a)
    ∧ (searchKnowledgeBase dist embed store text t).length ≤ 3 := by
  refine ⟨?_, ?_, ?_⟩
  · intro r hr
    have h1 : r ∈ (store.filter
        (fun r => decide (t < simScore dist (embed text) r))).mergeSort
        (simLE dist (embed text)) := List.take_subset _ _ hr
    have h2 := List.mem_mergeSort.mp h1
    have h3 := List.of_mem_filter h2
    exact of_decide_eq_true h3
  · have hs := List.sorted_mergeSort
      (simLE_trans dist (embed text)) (simLE_total dist (embed text))
      (store.filter (fun r => decide (t < simScore dist (embed text) r)))
    have hp := List.Pairwise.sublist (List.take_sublist 3 _) hs
    exact hp.imp (fun h => of_decide_eq_true h)
  · exact List.length_take_le 3 _

/-- If a list splits in two ways into a block of elements failing `P`
followed by a block of elements satisfying `P`, the two splits agree. -/
theorem split_unique {α : Type} {P : α → Bool} :
    ∀ {xs ys xs' ys' : List α}, xs ++ ys = xs' ++ ys' →
      (∀ x ∈ xs, P x = false) → (∀ y ∈ ys, P y = true) →
      (∀ x ∈ xs', P x = false) → (∀ y ∈ ys', P y = true) →
      xs = xs' ∧ ys = ys'
  | [], ys, [], ys', h, _, _, _, _ => ⟨rfl, h⟩
  | [], ys, a' :: xs', ys', h, _, hys, hxs', _ => by
    have ha' : a' ∈ ys := by
      rw [List.nil_append] at h
      rw [h]
      exact List.mem_append_left _ (List.mem_cons_self _ _)
    have := hys a' ha'
    have := hxs' a' (List.mem_cons_self _ _)
    simp_all
  | a :: xs, ys, [], ys', h, hxs, _, _, hys' => by
    have ha : a ∈ ys' := by
      rw [List.nil_append] at h
      rw [← h]
      exact List.mem_append_left _ (List.mem_cons_self _ _)
    have := hys' a ha
    have := hxs a (List.mem_cons_self _ _)
    simp_all
  | a :: xs, ys, a' :: xs', ys', h, hxs, hys, hxs', hys' => by
    simp only [List.cons_append, List.cons.injEq] at h
    obtain ⟨rfl, h⟩ := h
    have ih := split_unique h (fun x hx => hxs x (List.mem_cons_of_mem _ hx)) hys
      (fun x hx => hxs' x (List.mem_cons_of_mem _ hx)) hys'
    exact ⟨by rw [ih.1], ih.2⟩

/-- A stable merge sort commutes with filtering: filtering after sorting is
the same as sorting the filtered list. -/
theorem filter_mergeSort_comm {α : Type} (le : α → α → Bool)
    (trans : ∀ a b c, le a b → le b c → le a c)
    (total : ∀ a b, le a b || le b a) (p : α → Bool) :
    ∀ l : List α, (l.mergeSort le).filter p = (l.filter p).mergeSort le
  | [] => by simp
  | a :: l => by
    have ih := filter_mergeSort_comm le trans total p l
    obtain ⟨l₁, l₂, h1, h2, h3⟩ := List.mergeSort_cons trans total a l
    by_cases hp : p a = true
    · obtain ⟨m₁, m₂, g1, g2, g3⟩ := List.mergeSort_cons trans total a (l.filter p)
      have key : l₁.filter p ++ l₂.filter p = m₁ ++ m₂ := by
        have : (l₁ ++ l₂).filter p = m₁ ++ m₂ := by
          rw [← h2, ih, g2]
        simpa using this
      have hs1 : (a :: l).mergeSort le |>.Pairwise (le · ·) :=
        List.sorted_mergeSort trans total _
      rw [h1] at hs1
      have hl₂ : ∀ b ∈ l₂, le a b = true := by
        have := (List.pairwise_append.mp hs1).2.1
        exact fun b hb => List.rel_of_pairwise_cons this hb
      have hs2 : (a :: l.filter p).mergeSort le |>.Pairwise (le · ·) :=
        List.sorted_mergeSort trans total _
      rw [g1] at hs2
      have hm₂ : ∀ b ∈ m₂, le a b = true := by
        have := (List.pairwise_append.mp hs2).2.1
        exact fun b hb => List.rel_of_pairwise_cons this hb
      have hl₁ : ∀ b ∈ l₁.filter p, le a b = false := by
        intro b hb
        have := h3 b (List.mem_of_mem_filter hb)
        simpa using this
      have hm₁ : ∀ b ∈ m₁, le a b = false := by
        intro b hb
        have := g3 b hb
        simpa using this
      have hl₂f : ∀ b ∈ l₂.filter p, le a b = true :=
        fun b hb => hl₂ b (List.mem_of_mem_filter hb)
      obtain ⟨e1, e2⟩ := split_unique key hl₁ hl₂f hm₁ hm₂
      rw [h1, List.filter_append, List.filter_cons_of_pos hp, e1, e2,
        List.filter_cons_of_pos hp, g1]
    · rw [h1, List.filter_append, List.filter_cons_of_neg hp,
        ← List.filter_append, ← h2, ih, List.filter_cons_of_neg hp]

/-- In a list sorted by `le`, filtering by a predicate that is upward closed
along `le` keeps exactly an initial segment. -/
theorem filter_eq_take_of_sorted {α : Type} {le : α → α → Bool} {p : α → Bool}
    (hcl : ∀ a b, le a b = true → p b = true → p a = true) :
    ∀ {l : List α}, l.Pairwise (fun a b => le a b = true) →
      l.filter p = l.take (l.filter p).length
  | [], _ => rfl
  | a :: l, h => by
    have ha : ∀ b ∈ l, le a b = true := fun b hb => List.rel_of_pairwise_cons h hb
    have hl : l.Pairwise (fun a b => le a b = true) := h.of_cons
    by_cases hp : p a = true
    · rw [List.filter_cons_of_pos hp]
      simp only [List.length_cons, List.take_succ_cons]
      rw [← filter_eq_take_of_sorted hcl hl]
    · have hnil : l.filter p = [] := by
        rw [List.filter_eq_nil_iff]
        intro b hb hpb
        exact hp (hcl a b (ha b hb) hpb)
      rw [List.filter_cons_of_neg hp, hnil]
      simp

/-- C3: for a fixed query and store, raising the threshold never increases
the result count, and the results at the higher threshold are a subset of
the results at the lower threshold. -/
theorem search_threshold_monotone
    (dist : List ℚ → List ℚ → ℚ) (embed : String → List ℚ)
    (store : List Record) (text : String) {t1 t2 : ℚ} (h : t1 ≤ t2) :
    (searchKnowledgeBase dist embed store text t2).length ≤
        (searchKnowledgeBase dist embed store text t1).length
    ∧ ∀ r ∈ searchKnowledgeBase dist embed store text t2,
        r ∈ searchKnowledgeBase dist embed store text t1 := by
  have himp : ∀ r : Record,
      decide (t2 < simScore dist (embed text) r) = true →
      decide (t1 < simScore dist (embed text) r) = true := by
    intro r hr
    have := of_decide_eq_true hr
    exact decide_eq_true_eq.mpr (lt_of_le_of_lt h this)
  have hff : store.filter (fun r => decide (t2 < simScore dist (embed text) r)) =
      (store.filter (fun r => decide (t1 < simScore dist (embed text) r))).filter
        (fun r => decide (t2 < simScore dist (embed text) r)) := by
    rw [List.filter_filter]
    apply List.filter_congr
    intro r _
    by_cases h2 : decide (t2 < simScore dist (embed text) r) = true
    · rw [h2, himp r h2]
      rfl
    · simp only [Bool.not_eq_true] at h2
      rw [h2]
      simp
  constructor
  · simp only [searchKnowledgeBase, List.length_take, List.length_mergeSort]
    apply min_le_min (le_refl 3)
    rw [hff]
    exact (List.filter_sublist _).length_le
  · intro r hr
    simp only [searchKnowledgeBase] at hr ⊢
    set qv := embed text with hqv
    set L := (store.filter (fun r => decide (t1 < simScore dist qv r))).mergeSort
        (simLE dist qv) with hL
    have hHL : (store.filter (fun r => decide (t2 < simScore dist qv r))).mergeSort
        (simLE dist qv) = L.filter (fun r => decide (t2 < simScore dist qv r)) := by
      rw [hL, filter_mergeSort_comm (simLE dist qv) (simLE_trans dist qv)
        (simLE_total dist qv), ← hff]
    have hsorted : L.Pairwise (fun a b => simLE dist qv a b = true) :=
      List.sorted_mergeSort (simLE_trans dist qv) (simLE_total dist qv) _
    have hcl : ∀ a b : Record, simLE dist qv a b = true →
        decide (t2 < simScore dist qv a) = true ∨ True := fun _ _ _ => Or.inr trivial
    have hup : ∀ a b : Record, simLE dist qv a b = true →
        decide (t2 < simScore dist qv b) = true →
        decide (t2 < simScore dist qv a) = true := by
      intro a b hab hb
      have h1 : simScore dist qv b ≤ simScore dist qv a := of_decide_eq_true hab
      have h2 : t2 < simScore dist qv b := of_decide_eq_true hb
      exact decide_eq_true_eq.mpr (lt_of_lt_of_le h2 h1)
    have htake := filter_eq_take_of_sorted hup hsorted
    rw [hHL, htake] at hr
    rw [List.take_take] at hr
    have hmem := (List.take_sublist_take_left L
      (Nat.min_le_left 3 _)).subset hr
    exact hmem

/-- `AI.check_duplicate`: a candidate is a duplicate when the retrieval
engine at the (default 0.9) threshold returns at least one record. -/
def checkDuplicate (dist : List ℚ → List ℚ → ℚ) (embed : String → List ℚ)
    (store : List Record) (text : String) (threshold : ℚ := 9/10) : Bool :=
  decide (0 < (searchKnowledgeBase dist embed store text threshold).length)

/-- `spoiler.lower() in ['yes', 'y', 'true']` in `upsert_knowledge`. -/
def parseSpoiler (s : String) : Bool :=
  ["yes", "y", "true"].contains s.toLower

/-- Fresh id handed out by the database on insertion (`SERIAL ... RETURNING id`). -/
def nextId (store : List Record) : Nat :=
  store.foldr (fun r acc => max r.id acc) 0 + 1

/-- The duplicate warning returned by `upsert_knowledge`. -/
def dupWarning : String :=
  "This content seems very similar to existing knowledge. Consider using /edit instead."

/-- Outcome of `Knowledge.upsert_knowledge`: the updated table, the returned
document id, the warning message (if any), and whether the duplicate check
ran (a trace of the `doc_id is None and check_dup` branch). -/
structure UpsertOut where
  store : List Record
  docId : Option Nat
  warning : Option String
  dupChecked : Bool
deriving DecidableEq, Repr

/-- `Knowledge.upsert_knowledge`.  On a new entry (no `docId`) with
`checkDup` set, a duplicate aborts the insert with a warning.  Otherwise the
combined text is embedded; with a `docId` the row is updated in place with
`metadata = metadata || {is_spoiler, last_editor_id}` (JSONB merge), without
one a fresh row is inserted with full metadata. -/
def upsertKnowledge (dist : List ℚ → List ℚ → ℚ) (embed : String → List ℚ)
    (store : List Record) (topic content spoiler : String) (userId : Int)
    (docId : Option Nat) (checkDup : Bool := true) : UpsertOut :=
  let dupChecked := docId.isNone && checkDup
  if dupChecked && checkDuplicate dist embed store (topic ++ " " ++ content) then
    ⟨store, none, some dupWarning, dupChecked⟩
  else
    let emb := embed ("Topic: " ++ topic ++ "\nContent: " ++ content)
    match docId with
    | some i =>
        let updateMeta : Jsonb :=
          [("is_spoiler", JVal.jBool (parseSpoiler spoiler)),
           ("last_editor_id", JVal.jInt userId)]
        ⟨store.map (fun r => if r.id = i then
            { r with
              topic := topic
              content := content
              embedding := emb
              metadata := jsonbConcat r.metadata updateMeta }
          else r),
          some i, none, dupChecked⟩
    | none =>
        let meta : Jsonb :=
          [("votes", JVal.jInt 0), ("flags", JVal.jInt 0),
           ("is_spoiler", JVal.jBool (parseSpoiler spoiler)),
           ("author_id", JVal.jInt userId)]
        ⟨store ++ [{ id := nextId store
                     topic := topic
                     content := content
                     embedding := emb
                     metadata := meta }],
          some (nextId store), none, dupChecked⟩

/-- Concrete cosine-distance stand-in used to instantiate the abstract
provider in witnesses: distance 0 between equal vectors, 1 otherwise. -/
def wDist : List ℚ → List ℚ → ℚ := fun a b => if a = b then 0 else 1

/-- Concrete embedding provider used in witnesses. -/
def wEmbed : String → List ℚ := fun s => [(s.length : ℚ)]

/-- First concrete record used in witnesses. -/
def wRec1 : Record :=
  { id := 1
    topic := "Fishing"
    content := "Use a rod"
    embedding := [4]
    metadata := [("votes", JVal.jInt 3), ("flags", JVal.jInt 0),
                 ("author_id", JVal.jInt 10)] }

/-- Second concrete record used in witnesses. -/
def wRec2 : Record :=
  { id := 2
    topic := "IP"
    content := "1.2.3.4"
    embedding := [2]
    metadata := [] }

/-- Concrete knowledge store used in witnesses. -/
def wStore : List Record := [wRec1, wRec2]

/-- Witness for C3 at thresholds 1/5 ≤ 1/2 on a concrete store. -/
theorem search_threshold_monotone_witness :
    (searchKnowledgeBase wDist wEmbed wStore "fish" (1/2)).length ≤
        (searchKnowledgeBase wDist wEmbed wStore "fish" (1/5)).length
    ∧ ∀ r ∈ searchKnowledgeBase wDist wEmbed wStore "fish" (1/2),
        r ∈ searchKnowledgeBase wDist wEmbed wStore "fish" (1/5) :=
  search_threshold_monotone wDist wEmbed wStore "fish" (by norm_num)

/-- The retrieval result is nonempty exactly when some stored record clears
the threshold. -/
theorem checkDuplicate_iff (dist : List ℚ → List ℚ → ℚ) (embed : String → List ℚ)
    (store : List Record) (text : String) (th : ℚ) :
    checkDuplicate dist embed store text th = true ↔
      ∃ r ∈ store, th < simScore dist (embed text) r := by
  unfold checkDuplicate searchKnowledgeBase
  simp only [decide_eq_true_eq, List.length_take, List.length_mergeSort, Nat.lt_min,
    ← List.countP_eq_length_filter, List.countP_pos_iff, decide_eq_true_eq]
  constructor
  · intro h
    exact h.2
  · intro h
    exact ⟨by norm_num, h⟩

/-- C4: `check_duplicate` at its default threshold 0.9 returns true iff some
stored record has similarity strictly above 0.9 to the candidate text; it is
true when some stored embedding coincides with the candidate's embedding
(given that the distance of a vector to itself is 0), false on an empty
store; and `upsert_knowledge` never runs the duplicate check on an edit
(an existing `doc_id`). -/
theorem checkDuplicate_spec (dist : List ℚ → List ℚ → ℚ) (embed : String → List ℚ)
    (store : List Record) (text : String) :
    (checkDuplicate dist embed store text (9/10) = true ↔
      ∃ r ∈ store, (9:ℚ)/10 < simScore dist (embed text) r)
    ∧ checkDuplicate dist embed [] text (9/10) = false
    ∧ (∀ r ∈ store, r.embedding = embed text →
        dist (embed text) (embed text) = 0 →
        checkDuplicate dist embed store text (9/10) = true)
    ∧ (∀ topic content spoiler uid i cd,
        (upsertKnowledge dist embed store topic content spoiler uid
          (some i) cd).dupChecked = false) := by
  refine ⟨checkDuplicate_iff dist embed store text (9/10), ?_, ?_, ?_⟩
  · simp [checkDuplicate, searchKnowledgeBase]
  · intro r hr hemb hdist
    refine (checkDuplicate_iff dist embed store text (9/10)).mpr ⟨r, hr, ?_⟩
    rw [simScore, hemb, hdist]
    norm_num
  · intro topic content spoiler uid i cd
    simp [upsertKnowledge]

/-- Witness for C4: on the concrete store, a candidate embedding equal to a
stored one is flagged as duplicate, and an edit never runs the check. -/
theorem checkDuplicate_spec_witness :
    checkDuplicate wDist wEmbed wStore "fish" (9/10) = true
    ∧ (upsertKnowledge wDist wEmbed wStore "Map" "See the wiki" "no" 7
        (some 1) true).dupChecked = false :=
  ⟨(checkDuplicate_spec wDist wEmbed wStore "fish").2.2.1 wRec1 (by decide)
      (by decide) (by decide),
   (checkDuplicate_spec wDist wEmbed wStore "fish").2.2.2 "Map" "See the wiki"
      "no" 7 1 true⟩

/-- Filtering by a weaker predicate does not change the first match of a
stronger one. -/
theorem find?_filter_of_imp {α : Type} {p q : α → Bool}
    (h : ∀ x, p x = true → q x = true) :
    ∀ l : List α, (l.filter q).find? p = l.find? p
  | [] => rfl
  | a :: l => by
    by_cases hq : q a = true
    · rw [List.filter_cons_of_pos hq]
      by_cases hp : p a = true
      · rw [List.find?_cons_of_pos _ hp, List.find?_cons_of_pos _ hp]
      · rw [List.find?_cons_of_neg _ hp, List.find?_cons_of_neg _ hp,
          find?_filter_of_imp h l]
    · have hp : ¬ p a = true := fun hpa => hq (h a hpa)
      rw [List.filter_cons_of_neg hq, List.find?_cons_of_neg _ hp,
        find?_filter_of_imp h l]

/-- JSONB merge looks up keys absent from the right operand in the left
operand. -/
theorem jget_jsonbConcat_of_not_mem_right (a b : Jsonb) (k : String)
    (hk : ∀ kv ∈ b, kv.1 ≠ k) :
    jget (jsonbConcat a b) k = jget a k := by
  unfold jget jsonbConcat
  rw [List.find?_append]
  have hb : b.find? (fun kv => kv.1 = k) = none := by
    rw [List.find?_eq_none]
    intro kv hkv
    simp only [decide_eq_true_eq]
    exact hk kv hkv
  rw [hb, Option.or_none]
  congr 1
  apply find?_filter_of_imp
  intro kv hkv
  simp only [decide_eq_true_eq] at hkv
  simp only [decide_eq_true_eq]
  intro hany
  rw [List.any_eq_true] at hany
  obtain ⟨kv2, hkv2, he⟩ := hany
  simp only [decide_eq_true_eq] at he
  exact hk kv2 hkv2 (he.symm ▸ hkv)

/-- JSONB merge prefers bindings of the right operand. -/
theorem jget_jsonbConcat_of_mem_right (a b : Jsonb) (k : String) (v : JVal)
    (hv : jget b k = some v) :
    jget (jsonbConcat a b) k = some v := by
  unfold jget jsonbConcat
  rw [List.find?_append]
  have hbk : ∃ kv ∈ b, kv.1 = k := by
    unfold jget at hv
    obtain ⟨kv, hfind⟩ := Option.map_eq_some.mp hv
    refine ⟨kv, List.mem_of_find?_eq_some hfind.1, ?_⟩
    have := List.find?_some hfind.1
    simpa using this
  have hfa : (a.filter (fun kv => ¬ b.any (fun kv2 => kv2.1 = kv.1))).find?
      (fun kv => kv.1 = k) = none := by
    rw [List.find?_eq_none]
    intro kv hkv
    simp only [decide_eq_true_eq]
    intro hkvk
    have hq := List.of_mem_filter hkv
    simp only [decide_eq_true_eq] at hq
    apply hq
    rw [List.any_eq_true]
    obtain ⟨kv2, hkv2, he⟩ := hbk
    exact ⟨kv2, hkv2, by simp [he, hkvk]⟩
  rw [hfa, Option.none_or]
  unfold jget at hv
  exact hv

/-- C5: editing an existing record (`upsert_knowledge` with a `doc_id`)
replaces topic, content and embedding and sets `last_editor_id`, while the
JSONB shallow merge leaves the votes and flags metadata unchanged; records
with other ids are untouched. -/
theorem edit_preserves_votes_flags
    (dist : List ℚ → List ℚ → ℚ) (embed : String → List ℚ)
    (store : List Record) (topic content spoiler : String) (uid : Int)
    (i : Nat) (cd : Bool) :
    (∀ r ∈ store, r.id = i →
      ∃ r' ∈ (upsertKnowledge dist embed store topic content spoiler uid
          (some i) cd).store,
        r'.id = i ∧ r'.topic = topic ∧ r'.content = content
        ∧ r'.embedding = embed ("Topic: " ++ topic ++ "\nContent: " ++ content)
        ∧ jget r'.metadata "votes" = jget r.metadata "votes"
        ∧ jget r'.metadata "flags" = jget r.metadata "flags"
        ∧ jget r'.metadata "last_editor_id" = some (JVal.jInt uid))
    ∧ (∀ r ∈ store, r.id ≠ i →
      r ∈ (upsertKnowledge dist embed store topic content spoiler uid
          (some i) cd).store) := by
  have hstore : (upsertKnowledge dist embed store topic content spoiler uid
      (some i) cd).store
      = store.map (fun r => if r.id = i then
          { r with
            topic := topic
            content := content
            embedding := embed ("Topic: " ++ topic ++ "\nContent: " ++ content)
            metadata := jsonbConcat r.metadata
              [("is_spoiler", JVal.jBool (parseSpoiler spoiler)),
               ("last_editor_id", JVal.jInt uid)] }
          else r) := by
    simp [upsertKnowledge]
  constructor
  · intro r hr hid
    rw [hstore]
    refine ⟨_, List.mem_map_of_mem _ hr, ?_⟩
    simp only [hid, if_pos rfl]
    refine ⟨rfl, rfl, rfl, rfl, ?_, ?_, ?_⟩
    · apply jget_jsonbConcat_of_not_mem_right
      intro kv hkv
      simp only [List.mem_cons, List.not_mem_nil, or_false] at hkv
      rcases hkv with h | h <;> (rw [h]; exact of_decide_eq_false rfl)
    · apply jget_jsonbConcat_of_not_mem_right
      intro kv hkv
      simp only [List.mem_cons, List.not_mem_nil, or_false] at hkv
      rcases hkv with h | h <;> (rw [h]; exact of_decide_eq_false rfl)
    · apply jget_jsonbConcat_of_mem_right
      rfl
  · intro r hr hid
    rw [hstore]
    refine List.mem_map.mpr ⟨r, hr, ?_⟩
    simp [hid]

/-- Witness for C5: editing the first concrete record keeps its 3 votes and
0 flags while replacing its text fields. -/
theorem edit_preserves_votes_flags_witness :
    ∃ r' ∈ (upsertKnowledge wDist wEmbed wStore "Angling" "Use a better rod"
        "yes" 42 (some 1) true).store,
      r'.id = 1 ∧ r'.topic = "Angling" ∧ r'.content = "Use a better rod"
      ∧ r'.embedding = wEmbed ("Topic: " ++ "Angling" ++ "\nContent: " ++
          "Use a better rod")
      ∧ jget r'.metadata "votes" = jget wRec1.metadata "votes"
      ∧ jget r'.metadata "flags" = jget wRec1.metadata "flags"
      ∧ jget r'.metadata "last_editor_id" = some (JVal.jInt 42) :=
  (edit_preserves_votes_flags wDist wEmbed wStore "Angling" "Use a better rod"
    "yes" 42 1 true).1 wRec1 (by decide) (by decide)

/-- Durable table plus in-memory cache of `ConfigManager`. -/
structure ConfigState where
  durable : List (String × String)
  cache : List (String × String)
deriving DecidableEq, Repr

/-- Association-list upsert: models both the SQL
`INSERT ... ON CONFLICT (key) DO UPDATE SET value` and the cache dict
assignment. -/
def upsertAssoc (m : List (String × String)) (k v : String) :
    List (String × String) :=
  if m.any (fun kv => kv.1 = k) then
    m.map (fun kv => if kv.1 = k then (k, v) else kv)
  else m ++ [(k, v)]

/-- `ConfigManager.get`: a pure cache lookup; the default is returned when
the key is absent.  No I/O: the durable table is not consulted. -/
def cfgGet (st : ConfigState) (key : String)
    (dflt : Option String := none) : Option String :=
  ((st.cache.find? (fun kv => kv.1 = key)).map (fun kv => kv.2)).or dflt

/-- `ConfigManager.set`: the durable write runs first (`dbOk` says whether
it succeeds); only when it succeeds is the cache updated.  A failing write
raises and leaves the whole state — in particular the cache — untouched. -/
def cfgSet (dbOk : Bool) (st : ConfigState) (key v : String) :
    Except Unit Unit × ConfigState :=
  if dbOk then
    (Except.ok (),
      { durable := upsertAssoc st.durable key v
        cache := upsertAssoc st.cache key v })
  else (Except.error (), st)

/-- Looking up a key right after upserting it yields the new binding. -/
theorem find?_upsertAssoc (m : List (String × String)) (k v : String) :
    (upsertAssoc m k v).find? (fun kv => kv.1 = k) = some (k, v) := by
  unfold upsertAssoc
  by_cases h : m.any (fun kv => kv.1 = k) = true
  · rw [if_pos h]
    induction m with
    | nil => simp at h
    | cons a m ih =>
      by_cases ha : a.1 = k
      · have : (if a.1 = k then (k, v) else a) = (k, v) := if_pos ha
        simp only [List.map_cons, this]
        rw [List.find?_cons_of_pos _ (by simp)]
      · have : (if a.1 = k then (k, v) else a) = a := if_neg ha
        simp only [List.map_cons, this]
        rw [List.find?_cons_of_neg _ (by simpa using ha)]
        apply ih
        simp only [List.any_cons, Bool.or_eq_true, decide_eq_true_eq] at h
        rcases h with h | h
        · exact absurd h ha
        · exact h
  · rw [if_neg h]
    rw [List.find?_append]
    have hm : m.find? (fun kv => kv.1 = k) = none := by
      rw [List.find?_eq_none]
      intro kv hkv
      simp only [decide_eq_true_eq]
      intro hk
      exact h (List.any_eq_true.mpr ⟨kv, hkv, by simpa using hk⟩)
    rw [hm, Option.none_or]
    rw [List.find?_cons_of_pos _ (by simp)]

/-- C2: `set` writes through to durable storage and then the cache, so a
`set` followed by a `get` on the same key returns the just-set value; a
failing durable write propagates the error and leaves the state (cache
included) unchanged; and `get` depends only on the cache, never on the
durable table. -/
theorem config_set_get_spec (st : ConfigState) (key v : String) :
    cfgGet (cfgSet true st key v).2 key none = some v
    ∧ (cfgSet true st key v).2.durable = upsertAssoc st.durable key v
    ∧ (cfgSet false st key v).1 = Except.error ()
    ∧ (cfgSet false st key v).2 = st
    ∧ (∀ st2 : ConfigState, st.cache = st2.cache →
        ∀ k2 d, cfgGet st k2 d = cfgGet st2 k2 d) := by
  refine ⟨?_, rfl, rfl, rfl, ?_⟩
  · unfold cfgGet cfgSet
    rw [if_pos (by trivial)]
    rw [find?_upsertAssoc]
    rfl
  · intro st2 h k2 d
    unfold cfgGet
    rw [h]

/-- Witness for C2 on a concrete state: setting then getting
`ai_threshold` returns the new value, and `get` only reads the cache. -/
theorem config_set_get_spec_witness :
    cfgGet (cfgSet true ⟨[], []⟩ "ai_threshold" "0.7").2 "ai_threshold" none
      = some "0.7"
    ∧ cfgGet ⟨[], []⟩ "x" none = cfgGet ⟨[("a", "b")], []⟩ "x" none :=
  ⟨(config_set_get_spec ⟨[], []⟩ "ai_threshold" "0.7").1,
   (config_set_get_spec ⟨[], []⟩ "ai_threshold" "0.7").2.2.2.2
      ⟨[("a", "b")], []⟩ rfl "x" none⟩

/-- `/admin config threshold`: reject values outside `[0.1, 1.0]` before
any mutation, otherwise store the encoded value under `ai_threshold` via
the config store (write-through; a database failure propagates).  `enc` is
Python's `str(value)`. -/
def configThreshold (enc : ℚ → String) (dbOk : Bool) (st : ConfigState)
    (v : ℚ) : Except Unit (ConfigState × String) :=
  if ¬ (1/10 ≤ v ∧ v ≤ 1) then
    Except.ok (st, "Value must be between 0.1 and 1.0")
  else
    match cfgSet dbOk st "ai_threshold" (enc v) with
    | (Except.ok _, st2) => Except.ok (st2, "AI Confidence Threshold set")
    | (Except.error e, _) => Except.error e

/-- C8: a threshold outside `[0.1, 1.0]` is rejected with a validation
message and the state — durable `ai_threshold` and its cache entry — is
returned unchanged; an in-range value is stored and a subsequent read
yields it. -/
theorem config_threshold_validation (enc : ℚ → String) (dbOk : Bool)
    (st : ConfigState) (v : ℚ) :
    ((v < 1/10 ∨ 1 < v) → configThreshold enc dbOk st v =
        Except.ok (st, "Value must be between 0.1 and 1.0"))
    ∧ (1/10 ≤ v → v ≤ 1 →
        configThreshold enc true st v =
          Except.ok ((cfgSet true st "ai_threshold" (enc v)).2,
            "AI Confidence Threshold set")
        ∧ cfgGet (cfgSet true st "ai_threshold" (enc v)).2 "ai_threshold" none
          = some (enc v)) := by
  constructor
  · intro h
    unfold configThreshold
    rw [if_pos]
    intro hc
    rcases h with h | h
    · exact absurd hc.1 (not_le.mpr h)
    · exact absurd hc.2 (not_le.mpr h)
  · intro h1 h2
    constructor
    · unfold configThreshold
      rw [if_neg (by push_neg; exact ⟨h1, h2⟩)]
      rfl
    · exact (config_set_get_spec st "ai_threshold" (enc v)).1

/-- Concrete `str(value)` encoder used in the C8 witness. -/
def wEnc : ℚ → String := fun _ => "0.5"

/-- Witness for C8: value 2 is rejected without mutation; value 1/2 is
stored and read back. -/
theorem config_threshold_validation_witness :
    configThreshold wEnc true ⟨[], []⟩ 2 =
      Except.ok ((⟨[], []⟩ : ConfigState), "Value must be between 0.1 and 1.0")
    ∧ cfgGet (cfgSet true ⟨[], []⟩ "ai_threshold" (wEnc (1/2))).2
        "ai_threshold" none = some (wEnc (1/2)) :=
  ⟨(config_threshold_validation wEnc true ⟨[], []⟩ 2).1 (by norm_num),
   ((config_threshold_validation wEnc true ⟨[], []⟩ (1/2)).2 (by norm_num)
      (by norm_num)).2⟩

/-- `/forget`: look the topic up first; when absent, report NotFound and
leave the table untouched; when present, delete the matching rows. -/
def forget (store : List Record) (topic : String) : List Record × String :=
  match store.find? (fun r => r.topic = topic) with
  | none => (store, "Topic not found")
  | some _ =>
      (store.filter (fun r => ¬ r.topic = topic), "Forgot everything about it")

/-- Modelled from the spec: the repository has no alias-deletion command
(`/alias` only inserts or updates a trigger), so deletion of an alias is
modelled from the spec sentence "Deleting a nonexistent alias/topic
surfaces NotFound without mutating storage" together with the alias data
model (trigger unique, replacement): remove the trigger when present,
otherwise report NotFound and leave the alias table unchanged. -/
def deleteAlias (aliases : List (String × String)) (trigger : String) :
    List (String × String) × String :=
  match aliases.find? (fun a => a.1 = trigger) with
  | none => (aliases, "Alias not found")
  | some _ => (aliases.filter (fun a => ¬ a.1 = trigger), "Alias removed")

/-- C9: forgetting a topic absent from the knowledge store reports NotFound
and deletes nothing, and likewise deleting an absent alias trigger. -/
theorem forget_absent_no_mutation (store : List Record) (topic : String)
    (aliases : List (String × String)) (trigger : String) :
    ((∀ r ∈ store, r.topic ≠ topic) →
        forget store topic = (store, "Topic not found"))
    ∧ ((∀ a ∈ aliases, a.1 ≠ trigger) →
        deleteAlias aliases trigger = (aliases, "Alias not found")) := by
  constructor
  · intro h
    unfold forget
    have : store.find? (fun r => r.topic = topic) = none := by
      rw [List.find?_eq_none]
      intro r hr
      simpa using h r hr
    rw [this]
  · intro h
    unfold deleteAlias
    have : aliases.find? (fun a => a.1 = trigger) = none := by
      rw [List.find?_eq_none]
      intro a ha
      simpa using h a ha
    rw [this]

/-- Witness for C9 on concrete data: an absent topic and an absent alias
trigger are both reported NotFound with storage unchanged. -/
theorem forget_absent_no_mutation_witness :
    forget wStore "Cooking" = (wStore, "Topic not found")
    ∧ deleteAlias [("ip", "server address")] "dns" =
        ([("ip", "server address")], "Alias not found") :=
  ⟨(forget_absent_no_mutation wStore "Cooking" [("ip", "server address")]
      "dns").1 (by decide),
   (forget_absent_no_mutation wStore "Cooking" [("ip", "server address")]
      "dns").2 (by decide)⟩

/-- Whether a knowledge-gaps channel is configured and resolvable
(`channel_knowledge_gaps` set and `bot.get_channel` returns a channel). -/
def gapChannelOk (chanOk : String → Bool) (st : ConfigState) : Bool :=
  match cfgGet st "channel_knowledge_gaps" none with
  | some cid => chanOk cid
  | none => false

/-- Observable trace of one accepted live query in `Query.on_message`. -/
structure QueryTrace where
  queryText : String
  englishQuery : String
  results : List Record
  gapSent : Bool
  synthQuestion : String
  synthContext : List Record
  replied : Bool
deriving DecidableEq, Repr

/-- The live-query pipeline of `Query.on_message` after the permission
gates: alias substitution on the mention-stripped content, threshold from
config (default "0.5"), translation to English (a fallible LLM call that
the handler does not catch), retrieval with the English query, a gap
notification when retrieval is empty and a gaps channel is configured and
resolvable, then answer synthesis over the alias-substituted
original-language text plus the retrieved records, and a reply.  A raised
translation error escapes the handler: no later step runs, no reply is
sent. -/
def onMessage (dist : List ℚ → List ℚ → ℚ) (embed : String → List ℚ)
    (aliasSub : String → String) (translate : String → Except Unit String)
    (parse : String → ℚ) (chanOk : String → Bool)
    (st : ConfigState) (store : List Record) (content : String) :
    Except Unit QueryTrace :=
  let queryText := aliasSub content
  let threshold := parse ((cfgGet st "ai_threshold" (some "0.5")).getD "0.5")
  match translate queryText with
  | Except.error e => Except.error e
  | Except.ok english =>
      let results := searchKnowledgeBase dist embed store english threshold
      Except.ok
        { queryText := queryText
          englishQuery := english
          results := results
          gapSent := results.isEmpty && gapChannelOk chanOk st
          synthQuestion := queryText
          synthContext := results
          replied := true }

/-- C6 counterexample: with an empty store (retrieval returns zero records)
but no configured knowledge-gaps channel, no gap notification is sent, so
the notification is not emitted "exactly when" retrieval is empty. -/
theorem gap_notification_counterexample :
    (onMessage wDist wEmbed (fun s => s) Except.ok (fun _ => 1/2)
        (fun _ => true) ⟨[], []⟩ [] "healing").map
      (fun tr => (tr.results, tr.gapSent)) =
      Except.ok (([] : List Record), false) := by
  simp [onMessage, searchKnowledgeBase, gapChannelOk, cfgGet, Except.map]

/-- C6 (amended): on a completed live query, the gap notification is sent
exactly when retrieval returned zero records AND a knowledge-gaps channel
is configured and resolvable; it is never sent when retrieval returned a
record; and the synthesizer is still invoked afterwards with the (possibly
empty) retrieval result as its context. -/
theorem gap_notification_spec (dist : List ℚ → List ℚ → ℚ)
    (embed : String → List ℚ) (aliasSub : String → String)
    (translate : String → Except Unit String) (parse : String → ℚ)
    (chanOk : String → Bool) (st : ConfigState) (store : List Record)
    (content : String) :
    ∀ tr, onMessage dist embed aliasSub translate parse chanOk st store
        content = Except.ok tr →
      tr.gapSent = (tr.results.isEmpty && gapChannelOk chanOk st)
      ∧ (tr.results ≠ [] → tr.gapSent = false)
      ∧ tr.synthContext = tr.results := by
  intro tr h
  simp only [onMessage] at h
  cases htr : translate (aliasSub content) with
  | error e =>
    rw [htr] at h
    exact absurd h (by simp)
  | ok english =>
    rw [htr] at h
    simp only [Except.ok.injEq] at h
    subst h
    refine ⟨rfl, ?_, rfl⟩
    intro hne
    simp only []
    cases hres : searchKnowledgeBase dist embed store english
        (parse ((cfgGet st "ai_threshold" (some "0.5")).getD "0.5")) with
    | nil => exact absurd hres hne
    | cons a rest => rfl

/-- Concrete trace of the C6 witness run: empty store, no configured gaps
channel. -/
def wTrace : QueryTrace :=
  { queryText := "healing"
    englishQuery := "healing"
    results := []
    gapSent := false
    synthQuestion := "healing"
    synthContext := []
    replied := true }

/-- Witness for the amended C6 on a concrete completed run. -/
theorem gap_notification_spec_witness :
    wTrace.gapSent = (wTrace.results.isEmpty &&
        gapChannelOk (fun _ => true) ⟨[], []⟩)
    ∧ (wTrace.results ≠ [] → wTrace.gapSent = false)
    ∧ wTrace.synthContext = wTrace.results :=
  gap_notification_spec wDist wEmbed (fun s => s) Except.ok (fun _ => 1/2)
    (fun _ => true) ⟨[], []⟩ [] "healing" wTrace
    (by simp [onMessage, searchKnowledgeBase, gapChannelOk, cfgGet, wTrace])

/-- C7 counterexample: when the translation call fails on a live query, the
handler raises — it produces no visible response and does not fall back to
retrieving with the original text, leaving the request unanswered. -/
theorem translation_failure_counterexample :
    onMessage wDist wEmbed (fun s => s) (fun _ => Except.error ())
      (fun _ => 1/2) (fun _ => true) ⟨[], []⟩ wStore "ano ip" =
      Except.error () := rfl

/-- `Knowledge.upsert_knowledge` with its try/except boundary made
explicit: `ok` says whether the wrapped calls (duplicate check, embedding,
database write, audit log) all succeed; a raised exception is caught inside
the method, which then returns no id and the error text instead of
propagating. -/
def upsertKnowledgeF (ok : Bool) (emsg : String)
    (dist : List ℚ → List ℚ → ℚ) (embed : String → List ℚ)
    (store : List Record) (topic content spoiler : String) (userId : Int)
    (docId : Option Nat) (checkDup : Bool := true) :
    Option Nat × Option String :=
  if ok then
    let out := upsertKnowledge dist embed store topic content spoiler userId
      docId checkDup
    (out.docId, out.warning)
  else (none, some ("An error occurred while saving: " ++ emsg))

/-- `Knowledge.save_knowledge`, the shared teach/edit callback: forwards to
`upsert_knowledge` and always sends a followup to the requester — the error
text when one is returned, the success embed otherwise.  The return value
is the visible reply; the function is total, so every outcome replies. -/
def saveKnowledge (ok : Bool) (emsg : String)
    (dist : List ℚ → List ℚ → ℚ) (embed : String → List ℚ)
    (store : List Record) (topic content spoiler : String) (userId : Int)
    (docId : Option Nat) : String :=
  match upsertKnowledgeF ok emsg dist embed store topic content spoiler
      userId docId with
  | (_, some err) => err
  | (_, none) => if docId.isSome then "Knowledge Updated" else "Knowledge Added"

/-- The `/alias` handler: try the upsert (`INSERT ... ON CONFLICT (trigger)
DO UPDATE`) and reply with a success message; a raised database error is
caught at the handler boundary and answered with an error message, the
alias table unchanged. -/
def aliasCommand (dbOk : Bool) (emsg : String)
    (aliases : List (String × String)) (trigger replacement : String) :
    List (String × String) × String :=
  if dbOk then (upsertAssoc aliases trigger replacement, "Alias set")
  else (aliases, "Error setting alias: " ++ emsg)

/-- C7 (amended): the knowledge-saving and alias handlers convert failures
of their external calls into visible messages — a failing save replies with
the caught error text, a failing alias upsert replies with an error message
and leaves the table unchanged — but in the live-query path a translation
failure propagates out of the message handler unhandled: no reply and no
pass-through of the original text, so such a request is left unanswered; a
run in which the pipeline completes always replies to the requester. -/
theorem translation_failure_propagates (dist : List ℚ → List ℚ → ℚ)
    (embed : String → List ℚ) (aliasSub : String → String)
    (translate : String → Except Unit String) (parse : String → ℚ)
    (chanOk : String → Bool) (st : ConfigState) (store : List Record)
    (content : String) :
    (∀ e, translate (aliasSub content) = Except.error e →
      onMessage dist embed aliasSub translate parse chanOk st store content
        = Except.error e)
    ∧ (∀ tr, onMessage dist embed aliasSub translate parse chanOk st store
        content = Except.ok tr → tr.replied = true)
    ∧ (∀ emsg topic body spoiler uid docId,
        saveKnowledge false emsg dist embed store topic body spoiler uid docId
          = "An error occurred while saving: " ++ emsg)
    ∧ (∀ emsg aliases trigger replacement,
        aliasCommand false emsg aliases trigger replacement
          = (aliases, "Error setting alias: " ++ emsg)) := by
  refine ⟨?_, ?_, ?_, ?_⟩
  · intro e he
    simp only [onMessage]
    rw [he]
  · intro tr h
    simp only [onMessage] at h
    cases htr : translate (aliasSub content) with
    | error e =>
      rw [htr] at h
      exact absurd h (by simp)
    | ok english =>
      rw [htr] at h
      simp only [Except.ok.injEq] at h
      subst h
      rfl
  · intro emsg topic body spoiler uid docId
    rfl
  · intro emsg aliases trigger replacement
    rfl

/-- Witness for the amended C7: a failing translator aborts the concrete
run with the propagated error, while a failing save and a failing alias
upsert each reply with their error message. -/
theorem translation_failure_propagates_witness :
    onMessage wDist wEmbed (fun s => s) (fun _ => Except.error ())
      (fun _ => 1/2) (fun _ => true) ⟨[], []⟩ wStore "ano ip" =
      Except.error ()
    ∧ saveKnowledge false "db down" wDist wEmbed wStore "T" "C" "no" 7 none
        = "An error occurred while saving: " ++ "db down"
    ∧ aliasCommand false "db down" [("ip", "server address")] "dns" "domain"
        = ([("ip", "server address")], "Error setting alias: " ++ "db down") :=
  ⟨(translation_failure_propagates wDist wEmbed (fun s => s)
      (fun _ => Except.error ()) (fun _ => 1/2) (fun _ => true) ⟨[], []⟩
      wStore "ano ip").1 () rfl,
   (translation_failure_propagates wDist wEmbed (fun s => s)
      (fun _ => Except.error ()) (fun _ => 1/2) (fun _ => true) ⟨[], []⟩
      wStore "ano ip").2.2.1 "db down" "T" "C" "no" 7 none,
   (translation_failure_propagates wDist wEmbed (fun s => s)
      (fun _ => Except.error ()) (fun _ => 1/2) (fun _ => true) ⟨[], []⟩
      wStore "ano ip").2.2.2 "db down" [("ip", "server address")] "dns"
      "domain"⟩

/-- C10: on every completed live query the synthesizer's question is the
alias-substituted text in the user's original language, while the English
translation is used only as the retrieval query; the synthesizer context is
exactly the retrieval result. -/
theorem synthesizer_gets_original_language (dist : List ℚ → List ℚ → ℚ)
    (embed : String → List ℚ) (aliasSub : String → String)
    (translate : String → Except Unit String) (parse : String → ℚ)
    (chanOk : String → Bool) (st : ConfigState) (store : List Record)
    (content : String) :
    ∀ tr, onMessage dist embed aliasSub translate parse chanOk st store
        content = Except.ok tr →
      tr.synthQuestion = aliasSub content
      ∧ translate (aliasSub content) = Except.ok tr.englishQuery
      ∧ tr.results = searchKnowledgeBase dist embed store tr.englishQuery
          (parse ((cfgGet st "ai_threshold" (some "0.5")).getD "0.5"))
      ∧ tr.synthContext = tr.results := by
  intro tr h
  simp only [onMessage] at h
  cases htr : translate (aliasSub content) with
  | error e =>
    rw [htr] at h
    exact absurd h (by simp)
  | ok english =>
    rw [htr] at h
    simp only [Except.ok.injEq] at h
    subst h
    refine ⟨rfl, ?_, rfl, rfl⟩
    rfl

/-- Concrete threshold parser used in the C10 witness. -/
def parseHalf : String → ℚ := fun _ => 1/2

/-- Concrete trace of the C10 witness run: the translator rewrites the
query, retrieval uses the translation, the synthesizer still receives the
original text. -/
def wTraceEn : QueryTrace :=
  { queryText := "ano ip"
    englishQuery := "what is the ip"
    results := []
    gapSent := false
    synthQuestion := "ano ip"
    synthContext := []
    replied := true }

/-- Witness for C10 on a concrete completed run with a translator that
changes the text. -/
theorem synthesizer_gets_original_language_witness :
    wTraceEn.synthQuestion = (fun s : String => s) "ano ip"
    ∧ (fun _ : String => (Except.ok "what is the ip" : Except Unit String))
          "ano ip" = Except.ok wTraceEn.englishQuery
    ∧ wTraceEn.results = searchKnowledgeBase wDist wEmbed []
        wTraceEn.englishQuery
        (parseHalf ((cfgGet ⟨[], []⟩ "ai_threshold" (some "0.5")).getD "0.5"))
    ∧ wTraceEn.synthContext = wTraceEn.results :=
  synthesizer_gets_original_language wDist wEmbed (fun s => s)
    (fun _ => Except.ok "what is the ip") parseHalf (fun _ => true) ⟨[], []⟩
    [] "ano ip" wTraceEn
    (by simp [onMessage, searchKnowledgeBase, gapChannelOk, cfgGet, wTraceEn])
